import Mathlib

/-!
Verification development for the ooo-view command line tool (main.go).

The embedding models instants as Unix seconds (Int) and calendar days as
day numbers since the Unix epoch (Int); in UTC, and in any fixed-offset
zone, one Go AddDate(0, 0, 1) step is exactly 86400 seconds and the
boundaries of a calendar day are the multiples of 86400. Time zones are
modelled by their offset east of UTC in seconds. Fallible external calls
(keyring, JSON decoding, timestamp parsing, the provider API) are modelled
with Option and Except.
-/

namespace OooView

/-! ## AuthFlow: getToken (main.go lines 163-269) -/

/-- Credential as cached by getToken: only the expiry field matters for the
cache check (main.go line 176, token.Expiry.After(time.Now())). The expiry is
a Unix timestamp in seconds. -/
structure OToken where
  expiry : Int
  deriving DecidableEq

/-- Outcome of the cached-token lookup at the top of getToken: either the
cached token is returned at once, or control falls through to the
interactive authorization flow. -/
inductive TokenStep where
  | cached (t : OToken)
  | runFlow
  deriving DecidableEq

/-- Lines 170-180 of main.go: keyring.Get may fail (stored = none), the JSON
blob may fail to deserialize (unmarshal s = none), and the cached token is
returned only when token.Expiry.After(now), that is now < expiry; every
other case falls through to the authorization flow. -/
def getTokenCacheCheck (stored : Option String) (unmarshal : String → Option OToken)
    (now : Int) : TokenStep :=
  match stored with
  | none => .runFlow
  | some s =>
    match unmarshal s with
    | none => .runFlow
    | some tok => if now < tok.expiry then .cached tok else .runFlow

/-- Query parameters of the loopback callback request; Go r.URL.Query().Get
returns the empty string for a missing parameter. -/
structure CallbackReq where
  state : String
  code : String
  deriving DecidableEq

/-- Signal the callback handler (main.go lines 199-213) sends to the waiting
flow: an error on errChan when the state does not match the nonce or when no
code is present, and the authorization code on codeChan otherwise. -/
inductive HandlerSignal where
  | stateMismatch
  | noCode
  | gotCode (c : String)
  deriving DecidableEq

/-- Callback handler body (main.go lines 199-213). -/
def handleCallback (nonce : String) (r : CallbackReq) : HandlerSignal :=
  if r.state ≠ nonce then .stateMismatch
  else if r.code = "" then .noCode
  else .gotCode r.code

/-- Outcome of the select at main.go lines 236-243 for one callback request:
a code received from codeChan proceeds to config.Exchange, while an error
received from errChan makes getToken return that error without any token
exchange. -/
inductive FlowOutcome where
  | exchanged (code : String)
  | failedStateMismatch
  | failedNoCode
  deriving DecidableEq

/-- Composition of the handler with the select (main.go lines 199-243). -/
def flowAfterCallback (nonce : String) (r : CallbackReq) : FlowOutcome :=
  match handleCallback nonce r with
  | .stateMismatch => .failedStateMismatch
  | .noCode => .failedNoCode
  | .gotCode c => .exchanged c

/-- Environment of one authorization attempt after the cache miss (main.go
lines 182-268): whether openBrowser succeeds, the first callback request
(none models caller cancellation before any callback arrives), the result of
config.Exchange, and whether keyring.Set succeeds. -/
structure AuthEnv where
  browserOk : Bool
  callback : Option CallbackReq
  exchangeResult : Option OToken
  storeOk : Bool

/-- Exit of one authorization attempt. -/
inductive AuthExit where
  | success (t : OToken)
  | errBrowser
  | errStateMismatch
  | errNoCode
  | errCancelled
  | errExchange
  | errStore
  deriving DecidableEq

/-- Control flow of getToken after the HTTP server goroutine has started
(main.go lines 221-268). The Bool records whether server.Shutdown is invoked
on that path: in the source it is called only by the background goroutine at
lines 262-266, which is reached exclusively after a successful exchange and
store; every error return leaves the server listening. -/
def runAuthAttempt (nonce : String) (env : AuthEnv) : AuthExit × Bool :=
  if !env.browserOk then (.errBrowser, false)
  else
    match env.callback with
    | none => (.errCancelled, false)
    | some r =>
      match handleCallback nonce r with
      | .stateMismatch => (.errStateMismatch, false)
      | .noCode => (.errNoCode, false)
      | .gotCode _ =>
        match env.exchangeResult with
        | none => (.errExchange, false)
        | some t => if env.storeOk then (.success t, true) else (.errStore, false)

/-! ## Configuration: parseFlags (main.go lines 43-92) -/

/-- Timezone resolution of parseFlags: the flag default is the system local
zone, an explicit timezone flag replaces it, and a nonempty
CALENDAR_TIMEZONE environment variable (os.Getenv yields the empty string
when the variable is unset) overrides the result at main.go lines 86-89. -/
def resolveTimeZone (localTZ : String) (flagTZ : Option String) (envTZ : String) : String :=
  let base := flagTZ.getD localTZ
  if envTZ ≠ "" then envTZ else base

/-! ## Query window: main (main.go lines 528-541) -/

/-- Weekday of a day number in Go numbering (Sunday = 0, Monday = 1, ...):
Unix day 0, 1970-01-01, was a Thursday (= 4). -/
def weekdayOfDay (d : Int) : Int := (d + 4) % 7

/-- Loop at main.go lines 530-532: step one day back until the weekday is
Monday. The weekday cycles with period 7, so the loop moves at most six
days; the Nat fuel of 7 used below therefore never cuts it short. -/
def backToMondayAux : Nat → Int → Int
  | 0, d => d
  | t + 1, d => if weekdayOfDay d = 1 then d else backToMondayAux t (d - 1)

/-- Day of the Monday reached by the backward loop. -/
def backToMonday (d : Int) : Int := backToMondayAux 7 d

/-- Loop at main.go lines 538-540: step one day forward until the weekday is
Sunday; as above, at most six steps are ever taken. -/
def forwardToSundayAux : Nat → Int → Int
  | 0, d => d
  | t + 1, d => if weekdayOfDay d = 0 then d else forwardToSundayAux t (d + 1)

/-- Day of the Sunday reached by the forward loop. -/
def forwardToSunday (d : Int) : Int := forwardToSundayAux 7 d

/-- Window start of main (main.go lines 529-533), in UTC: time.Now().UTC()
is stepped back a day at a time until Monday - only its day number is
inspected and changed - and the final time.Date call pins the clock to
00:00:00 of the reached day. -/
def windowStart (nowSec : Int) : Int := 86400 * backToMonday ((nowSec / 86400))

/-- Window end of main (main.go lines 536-541): the already normalized start
is moved weeks * 7 days ahead (a Monday again), stepped forward to Sunday,
and pinned to 23:59:59 of that day. -/
def windowEnd (nowSec weeks : Int) : Int :=
  86400 * forwardToSunday (backToMonday ((nowSec / 86400)) + weeks * 7) + 86399

/-- Follows the words of the spec, for comparison with the code: the Monday
at or after a given day, that is the smallest day number that is at least d
and falls on a Monday. -/
def specMondayAtOrAfter (d : Int) : Int := d + (4 - d) % 7

/-! ## Event conversion and filtering: getOutOfOfficeEvents (main.go lines
425-476) and displayCalendar (main.go lines 320-423) -/

/-- Raw start or end field of a provider event. The source branches on
event.Start.DateTime being nonempty (a timed field) and otherwise parses
event.Start.Date (an all-day field). The Option payloads model parse
failure: a timed field carries the parsed RFC3339 instant in Unix seconds,
an all-day field carries the parsed calendar day number. -/
inductive RawTime where
  | timed (parsed : Option Int)
  | allDay (parsedDay : Option Int)
  deriving DecidableEq

/-- Event time conversion of getOutOfOfficeEvents (main.go lines 450-468):
timed fields parse directly; all-day fields go through
time.ParseInLocation with the configured zone, giving midnight of that
calendar day in the configured zone. With off the zone offset east of UTC
in seconds, the local midnight of day d is the instant 86400 * d - off. -/
def parseTimeFilter (off : Int) : RawTime → Option Int
  | .timed p => p
  | .allDay p => p.map (fun d => 86400 * d - off)

/-- Event time conversion of displayCalendar (main.go lines 330-346): timed
fields parse directly; all-day fields go through time.Parse without a
location, giving midnight of that calendar day in UTC. -/
def parseTimeDisplay : RawTime → Option Int
  | .timed p => p
  | .allDay p => p.map (fun d => 86400 * d)

/-- Provider event restricted to the fields the duration filter reads. -/
structure GEvent where
  startT : RawTime
  endT : RawTime
  deriving DecidableEq

/-- Filter loop of getOutOfOfficeEvents (main.go lines 445-473): an event
whose start or end fails to parse is skipped (continue), and a parsed event
is appended exactly when end.Sub(start) >= minDuration. -/
def filterEvents (off minDur : Int) : List GEvent → List GEvent
  | [] => []
  | e :: rest =>
    match parseTimeFilter off e.startT, parseTimeFilter off e.endT with
    | some s, some en =>
      if minDur ≤ en - s then e :: filterEvents off minDur rest
      else filterEvents off minDur rest
    | _, _ => filterEvents off minDur rest

/-- Day-marking loop of displayCalendar (main.go lines 348-356): starting at
the event start instant, the day of the cursor is marked and the cursor
moves forward one day, while the cursor is strictly before the event end.
Each step advances exactly 86400 seconds, so the loop runs at most
eend - start steps; the Nat fuel (eend - start).toNat used below therefore
never cuts it short. -/
def markLoop : Nat → Int → Int → List Int
  | 0, _, _ => []
  | f + 1, d, eend =>
    if d < eend then (d / 86400) :: markLoop f (d + 86400) eend else []

/-- Days on which one event marks its person present in the eventsByDate
grid of displayCalendar. -/
def eventDays (start eend : Int) : List Int :=
  markLoop (eend - start).toNat start eend

/-! ## Fan-out aggregation: main (main.go lines 550-569) -/

/-- Fan-out collection of main: one fetch per resolved member, each yielding
an event list or an error; a failing member is logged and its goroutine
returns early without writing, while a succeeding member writes its entry
into the shared map under the mutex, and wg.Wait joins every goroutine
before the map is read. Each goroutine writes a distinct key, so the final
mapping does not depend on completion order; the model processes the members
in list order, and order independence is proved below. -/
def aggregate (fetch : String → Except String (List GEvent)) :
    List String → List (String × List GEvent)
  | [] => []
  | m :: rest =>
    match fetch m with
    | .ok evs => (m, evs) :: aggregate fetch rest
    | .error _ => aggregate fetch rest

/-! ## Week-block rendering: displayCalendar (main.go lines 365-420) -/

/-- Week-block person collection of displayCalendar (main.go lines 379-393):
for each of the 7 days of the block, every person marked on that day is
added to a set, and the set is then sorted with sort.Strings. eventsByDate
gives, per day number, the key set of the per-day person map of the grid. -/
def peopleThisWeek (eventsByDate : Int → List String) (c : Int) : List String :=
  List.insertionSort (· ≤ ·) (((List.range 7).flatMap (fun i => eventsByDate (c + i))).dedup)

/-- Rendered form of one week block. -/
inductive WeekBlock where
  | noEvents
  | rows (people : List String)
  deriving DecidableEq

/-- Rendering decision at main.go lines 396-415: an empty person list prints
the No OOO Events line, otherwise one row is printed per person. -/
def renderWeek (eventsByDate : Int → List String) (c : Int) : WeekBlock :=
  if peopleThisWeek eventsByDate c = [] then .noEvents
  else .rows (peopleThisWeek eventsByDate c)

/-! ## Theorems -/

/-- C1: getToken returns a cached credential immediately, without running
the authorization exchange, exactly when the keyring lookup succeeds, the
blob deserializes, and its expiry is strictly after the current time; in
every other case, in particular for every cached credential whose expiry is
in the past, the cache check falls through to a fresh authorization flow. -/
theorem c1_cache_hit_iff (stored : Option String) (unmarshal : String → Option OToken)
    (now : Int) (t : OToken) :
    getTokenCacheCheck stored unmarshal now = .cached t ↔
      ∃ s, stored = some s ∧ unmarshal s = some t ∧ now < t.expiry := by
  constructor
  · intro hc
    cases stored with
    | none => simp [getTokenCacheCheck] at hc
    | some s =>
      cases h : unmarshal s with
      | none => simp [getTokenCacheCheck, h] at hc
      | some tok =>
        by_cases hlt : now < tok.expiry
        · simp only [getTokenCacheCheck, h, if_pos hlt, TokenStep.cached.injEq] at hc
          exact ⟨s, rfl, by rw [h, hc], hc ▸ hlt⟩
        · simp [getTokenCacheCheck, h, hlt] at hc
  · rintro ⟨s, rfl, hu, hlt⟩
    simp [getTokenCacheCheck, hu, hlt]

/-- C2: a callback whose state parameter differs from the nonce generated
for the attempt makes the flow fail with the state-mismatch error; the
select never yields an authorization code from that request, so
config.Exchange is never reached with a code from it. -/
theorem c2_state_mismatch (nonce : String) (r : CallbackReq)
    (h : r.state ≠ nonce) :
    flowAfterCallback nonce r = .failedStateMismatch := by
  simp [flowAfterCallback, handleCallback, h]

/-- Witness for C2 at a concrete mismatched callback. -/
theorem c2_state_mismatch_witness :
    ("evil" : String) ≠ "nonce"
    ∧ flowAfterCallback "nonce" ⟨"evil", "abc"⟩ = .failedStateMismatch :=
  ⟨by decide, c2_state_mismatch "nonce" ⟨"evil", "abc"⟩ (by decide)⟩

/-- C10: a nonempty CALENDAR_TIMEZONE environment variable determines the
configured timezone, overriding both the system-local default and a value
supplied through the timezone flag. -/
theorem c10_env_timezone (localTZ : String) (flagTZ : Option String) (envTZ : String)
    (h : envTZ ≠ "") :
    resolveTimeZone localTZ flagTZ envTZ = envTZ := by
  simp [resolveTimeZone, h]

/-- Witness for C10 at concrete values, with the flag set to a different
zone than the environment variable. -/
theorem c10_env_timezone_witness :
    ("Europe/Amsterdam" : String) ≠ ""
    ∧ resolveTimeZone "UTC" (some "America/New_York") "Europe/Amsterdam"
        = "Europe/Amsterdam" :=
  ⟨by decide, c10_env_timezone "UTC" (some "America/New_York") "Europe/Amsterdam" (by decide)⟩

/-- C4 counterexample: with a configured zone one hour east of UTC (offset
3600 seconds), the all-day date at day 0 converts to instant -3600 in the
duration filter of getOutOfOfficeEvents but to instant 0 in the grid
construction of displayCalendar, so the two sites do not use the same
conversion and the display conversion does not anchor all-day events at
midnight of the configured timezone. -/
theorem c4_conversion_counterexample :
    parseTimeFilter 3600 (.allDay (some 0)) = some (-3600)
    ∧ parseTimeDisplay (.allDay (some 0)) = some 0
    ∧ parseTimeFilter 3600 (.allDay (some 0)) ≠ parseTimeDisplay (.allDay (some 0)) := by
  decide

/-- C4 amended: both conversion sites parse timed events directly from their
timestamps, but only the duration filter anchors all-day events at midnight
in the configured timezone (offset off east of UTC), while the presence-grid
conversion of displayCalendar anchors all-day events at midnight UTC. -/
theorem c4_conversion_amended (off : Int) (p : Option Int) (d : Int) :
    parseTimeFilter off (.timed p) = p
    ∧ parseTimeDisplay (.timed p) = p
    ∧ parseTimeFilter off (.allDay (some d)) = some (86400 * d - off)
    ∧ parseTimeDisplay (.allDay (some d)) = some (86400 * d) :=
  ⟨rfl, rfl, rfl, rfl⟩

/-- C8: evaluation of the code at a failing input. With the browser opened
and a callback carrying a mismatched state, getToken returns the error and
server.Shutdown is never invoked on that path, leaving the loopback HTTP
server listening past the attempt; only the full success path (second
conjunct) triggers the shutdown. -/
theorem c8_server_leak :
    runAuthAttempt "nonce" ⟨true, some ⟨"evil", "c"⟩, some ⟨1000⟩, true⟩
        = (.errStateMismatch, false)
    ∧ (runAuthAttempt "nonce" ⟨true, some ⟨"nonce", "c"⟩, some ⟨1000⟩, true⟩).2 = true := by
  decide

/-- C5: a fetched event whose start and end both parse appears in the
filtered output exactly when its duration end - start is at least
minDuration; in particular the boundary case of a duration exactly equal to
minDuration is retained, and every shorter event is absent. -/
theorem c5_min_duration_filter (off minDur : Int) (evs : List GEvent) (e : GEvent)
    (s en : Int) (hs : parseTimeFilter off e.startT = some s)
    (he : parseTimeFilter off e.endT = some en) :
    e ∈ filterEvents off minDur evs ↔ (e ∈ evs ∧ minDur ≤ en - s) := by
  induction evs with
  | nil => simp [filterEvents]
  | cons a rest ih =>
    by_cases hae : a = e
    · subst hae
      rw [filterEvents, hs, he]
      by_cases hd : minDur ≤ en - s
      · simp [hd, ih]
      · simp only [if_neg hd, ih]
        simp [hd]
    · have hea : e ≠ a := fun h => hae h.symm
      rcases hpa : parseTimeFilter off a.startT with _ | sa
      · rw [filterEvents, hpa]
        simp [ih, hea]
      · rcases hpb : parseTimeFilter off a.endT with _ | ea
        · rw [filterEvents, hpa, hpb]
          simp [ih, hea]
        · rw [filterEvents, hpa, hpb]
          by_cases hd : minDur ≤ ea - sa
          · simp [hd, ih, hea]
          · simp [hd, ih, hea]

/-- Witness for C5: a one-day all-day event under a 24 hour minimum duration
sits exactly on the boundary and is retained. -/
theorem c5_min_duration_filter_witness :
    parseTimeFilter 0 (GEvent.mk (.allDay (some 0)) (.allDay (some 1))).startT = some 0
    ∧ parseTimeFilter 0 (GEvent.mk (.allDay (some 0)) (.allDay (some 1))).endT = some 86400
    ∧ (GEvent.mk (.allDay (some 0)) (.allDay (some 1)) ∈
        filterEvents 0 86400 [GEvent.mk (.allDay (some 0)) (.allDay (some 1))]
      ↔ (GEvent.mk (.allDay (some 0)) (.allDay (some 1)) ∈
            [GEvent.mk (.allDay (some 0)) (.allDay (some 1))] ∧ (86400 : Int) ≤ 86400 - 0)) :=
  ⟨by decide, by decide,
    c5_min_duration_filter 0 86400 [GEvent.mk (.allDay (some 0)) (.allDay (some 1))]
      (GEvent.mk (.allDay (some 0)) (.allDay (some 1))) 0 86400 (by decide) (by decide)⟩

/-- Membership in the aggregated mapping: a pair is present exactly when the
member is in the fan-out list and its fetch succeeded with that list. -/
theorem mem_aggregate (fetch : String → Except String (List GEvent))
    (members : List String) (m : String) (evs : List GEvent) :
    (m, evs) ∈ aggregate fetch members ↔ (m ∈ members ∧ fetch m = .ok evs) := by
  induction members with
  | nil => simp [aggregate]
  | cons a rest ih =>
    rcases hf : fetch a with ea | la
    · rw [aggregate, hf, ih]
      constructor
      · rintro ⟨h1, h2⟩
        exact ⟨List.mem_cons_of_mem a h1, h2⟩
      · rintro ⟨h1, h2⟩
        rcases List.mem_cons.mp h1 with rfl | h1
        · rw [h2] at hf
          cases hf
        · exact ⟨h1, h2⟩
    · rw [aggregate, hf]
      simp only [List.mem_cons, Prod.mk.injEq, ih]
      constructor
      · rintro (⟨rfl, rfl⟩ | ⟨h1, h2⟩)
        · exact ⟨Or.inl rfl, hf⟩
        · exact ⟨Or.inr h1, h2⟩
      · rintro ⟨rfl | h1, h2⟩
        · refine Or.inl ⟨rfl, ?_⟩
          rw [hf] at h2
          injection h2 with h3
          exact h3.symm
        · exact Or.inr ⟨h1, h2⟩

/-- C7: a member appears in the final mapping exactly when its fetch
succeeded, with exactly its fetched events, so when a single member fails
the others are all still present and the failing member is absent; and the
mapping is the same for every completion order of the member fetches
(membership is invariant under permutation of the fan-out list), reflecting
that the map is read only after the join of all goroutines. -/
theorem c7_aggregation_partial_failure (fetch : String → Except String (List GEvent))
    (members : List String) (m : String) (evs : List GEvent) :
    ((m, evs) ∈ aggregate fetch members ↔ (m ∈ members ∧ fetch m = .ok evs))
    ∧ ∀ members₂, members.Perm members₂ →
        ((m, evs) ∈ aggregate fetch members₂ ↔ (m, evs) ∈ aggregate fetch members) := by
  refine ⟨mem_aggregate fetch members m evs, fun members₂ hp => ?_⟩
  rw [mem_aggregate, mem_aggregate, hp.mem_iff]

/-- C9: the persons listed for a week block are exactly the distinct persons
present on at least one of its seven days, without repetition and sorted;
and the block renders as the no-events line exactly when no person is
present on any of its days. -/
theorem c9_week_block (eventsByDate : Int → List String) (c : Int) :
    (∀ p, p ∈ peopleThisWeek eventsByDate c ↔
        ∃ i : Nat, i < 7 ∧ p ∈ eventsByDate (c + i))
    ∧ (peopleThisWeek eventsByDate c).Nodup
    ∧ List.Sorted (· ≤ ·) (peopleThisWeek eventsByDate c)
    ∧ (renderWeek eventsByDate c = .noEvents ↔
        ∀ p (i : Nat), i < 7 → p ∉ eventsByDate (c + i)) := by
  have hperm := List.perm_insertionSort (α := String) (· ≤ ·)
    (((List.range 7).flatMap (fun i => eventsByDate (c + i))).dedup)
  have hmem : ∀ p, p ∈ peopleThisWeek eventsByDate c ↔
      ∃ i : Nat, i < 7 ∧ p ∈ eventsByDate (c + i) := by
    intro p
    rw [peopleThisWeek, hperm.mem_iff, List.mem_dedup, List.mem_flatMap]
    constructor
    · rintro ⟨i, hi, hp⟩
      exact ⟨i, List.mem_range.mp hi, hp⟩
    · rintro ⟨i, hi, hp⟩
      exact ⟨i, List.mem_range.mpr hi, hp⟩
  refine ⟨hmem, ?_, ?_, ?_⟩
  · exact hperm.nodup_iff.mpr (List.nodup_dedup _)
  · exact List.sorted_insertionSort (· ≤ ·) _
  · rw [renderWeek]
    by_cases hnil : peopleThisWeek eventsByDate c = []
    · simp only [if_pos hnil, true_iff]
      intro p i hi hp
      have := (hmem p).mpr ⟨i, hi, hp⟩
      rw [hnil] at this
      exact List.not_mem_nil p this
    · simp only [if_neg hnil]
      constructor
      · intro h
        cases h
      · intro hall
        exfalso
        rcases List.exists_mem_of_ne_nil _ hnil with ⟨p, hp⟩
        rcases (hmem p).mp hp with ⟨i, hi, hmemday⟩
        exact hall p i hi hmemday

/-- Closed form of the backward Monday loop: with enough fuel it subtracts
the distance to the previous Monday, which is (d + 3) mod 7 days. -/
theorem backToMondayAux_eq (t : Nat) : ∀ d : Int, (d + 3) % 7 ≤ (t : Int) →
    backToMondayAux t d = d - (d + 3) % 7 := by
  induction t with
  | zero =>
    intro d h
    simp only [backToMondayAux]
    omega
  | succ t ih =>
    intro d h
    simp only [backToMondayAux, weekdayOfDay]
    by_cases hc : (d + 4) % 7 = 1
    · rw [if_pos hc]
      omega
    · rw [if_neg hc, ih (d - 1) (by omega)]
      omega

/-- The backward loop of main.go lines 530-532 lands on the Monday at or
before its input day. -/
theorem backToMonday_eq (d : Int) : backToMonday d = d - (d + 3) % 7 :=
  backToMondayAux_eq 7 d (by omega)

/-- Closed form of the forward Sunday loop: with enough fuel it adds the
distance to the next Sunday, which is (-(d + 4)) mod 7 days. -/
theorem forwardToSundayAux_eq (t : Nat) : ∀ d : Int, (-(d + 4)) % 7 ≤ (t : Int) →
    forwardToSundayAux t d = d + (-(d + 4)) % 7 := by
  induction t with
  | zero =>
    intro d h
    simp only [forwardToSundayAux]
    omega
  | succ t ih =>
    intro d h
    simp only [forwardToSundayAux, weekdayOfDay]
    by_cases hc : (d + 4) % 7 = 0
    · rw [if_pos hc]
      omega
    · rw [if_neg hc, ih (d + 1) (by omega)]
      omega

/-- The forward loop of main.go lines 538-540 lands on the Sunday at or
after its input day. -/
theorem forwardToSunday_eq (d : Int) : forwardToSunday d = d + (-(d + 4)) % 7 :=
  forwardToSundayAux_eq 7 d (by omega)

/-- C3 counterexample: at the Tuesday instant 449000 (day 5, 1970-01-06),
the computed window start is midnight of the Monday BEFORE now (day 4,
instant 345600), not the Monday at/after now that the claim demands (day 11,
instant 950400); in particular the computed start precedes now itself. -/
theorem c3_window_counterexample :
    weekdayOfDay ((449000 : Int) / 86400) ≠ 1
    ∧ windowStart 449000 = 345600
    ∧ 86400 * specMondayAtOrAfter ((449000 : Int) / 86400) = 950400
    ∧ windowStart 449000 ≠ 86400 * specMondayAtOrAfter ((449000 : Int) / 86400)
    ∧ windowStart 449000 < 449000 := by
  decide

/-- C3 amended: for every now and every nonnegative weeks count, the window
start is 00:00:00 UTC of the Monday at or BEFORE now (at most six days
back), the end is 23:59:59 UTC of the Sunday that closes the week lying
weeks weeks after the start week (start + weeks * 604800 + 604799 seconds),
and the window is week aligned with start at most end. -/
theorem c3_window_amended (nowSec weeks : Int) (hw : 0 ≤ weeks) :
    windowStart nowSec % 86400 = 0
    ∧ weekdayOfDay (windowStart nowSec / 86400) = 1
    ∧ windowStart nowSec ≤ nowSec
    ∧ nowSec < windowStart nowSec + 7 * 86400
    ∧ windowEnd nowSec weeks = windowStart nowSec + weeks * 604800 + 604799
    ∧ windowEnd nowSec weeks % 86400 = 86399
    ∧ weekdayOfDay (windowEnd nowSec weeks / 86400) = 0
    ∧ windowStart nowSec ≤ windowEnd nowSec weeks := by
  have hb := backToMonday_eq ((nowSec / 86400))
  have hf := forwardToSunday_eq (backToMonday ((nowSec / 86400)) + weeks * 7)
  simp only [windowStart, windowEnd, weekdayOfDay]
  omega

/-- Witness for C3 amended at the concrete Tuesday instant 449000 with a
two-week horizon. -/
theorem c3_window_amended_witness :
    (0 : Int) ≤ 2
    ∧ (windowStart 449000 % 86400 = 0
    ∧ weekdayOfDay (windowStart 449000 / 86400) = 1
    ∧ windowStart 449000 ≤ 449000
    ∧ (449000 : Int) < windowStart 449000 + 7 * 86400
    ∧ windowEnd 449000 2 = windowStart 449000 + 2 * 604800 + 604799
    ∧ windowEnd 449000 2 % 86400 = 86399
    ∧ weekdayOfDay (windowEnd 449000 2 / 86400) = 0
    ∧ windowStart 449000 ≤ windowEnd 449000 2) :=
  ⟨by decide, c3_window_amended 449000 2 (by decide)⟩

/-- Membership in the day-marking loop, for any sufficient fuel: a day is
marked exactly when it is the day of some 24 hour step from the start
cursor that still lies strictly before the event end. -/
theorem markLoop_mem (fuel : Nat) : ∀ d eend x : Int, eend - d ≤ (fuel : Int) →
    (x ∈ markLoop fuel d eend ↔
      ∃ k : Nat, d + 86400 * k < eend ∧ x = (d + 86400 * k) / 86400) := by
  induction fuel with
  | zero =>
    intro d eend x h
    simp only [markLoop, List.not_mem_nil, false_iff, not_exists, not_and]
    intro k hk
    omega
  | succ f ih =>
    intro d eend x h
    simp only [markLoop]
    by_cases hd : d < eend
    · rw [if_pos hd]
      simp only [List.mem_cons]
      rw [ih (d + 86400) eend x (by omega)]
      constructor
      · rintro (rfl | ⟨k, hk1, hk2⟩)
        · exact ⟨0, by omega, by omega⟩
        · exact ⟨k + 1, by push_cast at hk1 ⊢; omega, by push_cast at hk2 ⊢; omega⟩
      · rintro ⟨k, hk1, hk2⟩
        cases k with
        | zero =>
          left
          omega
        | succ k =>
          right
          exact ⟨k, by push_cast at hk1 ⊢; omega, by push_cast at hk2 ⊢; omega⟩
    · rw [if_neg hd]
      simp only [List.not_mem_nil, false_iff, not_exists, not_and]
      intro k hk
      omega

/-- C6 counterexample: the timed event from day 0 at 23:00 (instant 82800)
to day 2 at 00:30 (instant 174600) lasts 91800 seconds, at least the default
24 hour minimum, and calendar day 2 lies inside the half-open interval (its
midnight instant 172800 satisfies start <= 172800 < end), yet the marking
loop of displayCalendar marks only days 0 and 1 and never marks day 2: it
marks the days reached by whole 24 hour steps from the start instant, not
every date the interval touches. -/
theorem c6_grid_counterexample :
    (86400 : Int) ≤ 174600 - 82800
    ∧ (82800 : Int) ≤ 86400 * 2
    ∧ (86400 * 2 : Int) < 174600
    ∧ eventDays 82800 174600 = [0, 1]
    ∧ (2 : Int) ∉ eventDays 82800 174600 := by
  decide

/-- C6 amended: for every event whose start instant falls exactly on a
midnight boundary (as the start of every all-day event does), the grid
marks its person exactly on the calendar dates of the half-open interval
from start to end: day D is marked iff D is at least the start day and the
midnight of D is strictly before the end instant. In particular, when the
end also falls exactly at midnight, the date of the end is never marked. -/
theorem c6_grid_amended (start eend D : Int) (hs : start % 86400 = 0) :
    D ∈ eventDays start eend ↔ (start / 86400 ≤ D ∧ 86400 * D < eend) := by
  rw [eventDays, markLoop_mem ((eend - start).toNat) start eend D (by omega)]
  constructor
  · rintro ⟨k, hk1, hk2⟩
    constructor <;> omega
  · rintro ⟨h1, h2⟩
    exact ⟨(D - start / 86400).toNat, by omega, by omega⟩

/-- Witness for C6 amended: a two-day all-day event starting at instant 0
marks day 1 and, per the iff at day 2, not the midnight end date. -/
theorem c6_grid_amended_witness :
    (0 : Int) % 86400 = 0
    ∧ ((1 : Int) ∈ eventDays 0 172800 ↔ ((0 : Int) / 86400 ≤ 1 ∧ (86400 : Int) * 1 < 172800))
    ∧ ((2 : Int) ∈ eventDays 0 172800 ↔ ((0 : Int) / 86400 ≤ 2 ∧ (86400 : Int) * 2 < 172800)) :=
  ⟨by decide, c6_grid_amended 0 172800 1 (by decide), c6_grid_amended 0 172800 2 (by decide)⟩

end OooView
